import Mathlib

/-!
Verification development for the typehere.app note-taking tool
(`src/App.tsx`).  The note store, the command-palette suggestion
engine and the keyboard state machine are shallowly embedded below;
`updatedAt` ISO timestamps are modelled as `Nat` (ISO-8601 strings
compare the same way as their `getTime()` values), JS
`string | undefined` and `string | null` fields as `Option String`,
and the JS number `NaN` (which `x % 0` produces) as the `none` case
of an `Option Nat` index.  The fuzzy-search library (Fuse.js) and the
JSON/LZ-string codecs are external dependencies; they enter only
through their interfaces, as explicit function parameters.
-/

/-- A note record, from `type Note` in App.tsx: `id`, `content`,
`updatedAt` (timestamp, modelled as `Nat`), optional `workspace` tag
(`none` models the JS `undefined`). -/
structure Note where
  id : String
  content : String
  updatedAt : Nat
  workspace : Option String
deriving Repr, DecidableEq

/-- Stable insertion of a note into a list sorted by `updatedAt`
descending: the new element goes before the first strictly older
element, hence after any element with an equal timestamp. -/
def insertNote (a : Note) : List Note → List Note
  | [] => [a]
  | b :: rest =>
    if b.updatedAt < a.updatedAt then a :: b :: rest else b :: insertNote a rest

/-- `sortNotes` from App.tsx: stable sort by `updatedAt` descending
(JS `Array.prototype.sort` is stable, and the comparator is
`new Date(b.updatedAt).getTime() - new Date(a.updatedAt).getTime()`). -/
def sortNotes (l : List Note) : List Note :=
  l.foldr insertNote []

/-- `workspaceNotes` memo in App.tsx: the whole database when the
filter is `null`, else the notes whose `workspace` strictly equals
the filter tag. -/
def workspaceNotes (db : List Note) (cw : Option String) : List Note :=
  match cw with
  | none => db
  | some w => db.filter (fun n => n.workspace == some w)

/-- Accumulator loop of the `availableWorkspaces` memo: walk the
recency-sorted database and collect each non-empty workspace tag the
first time it is seen (the JS code skips falsy tags, i.e. `undefined`
and the empty string). -/
def collectWorkspaces : List Note → List String → List String
  | [], acc => acc
  | n :: rest, acc =>
    match n.workspace with
    | none => collectWorkspaces rest acc
    | some w =>
      if w = "" then collectWorkspaces rest acc
      else if w ∈ acc then collectWorkspaces rest acc
      else collectWorkspaces rest (acc ++ [w])

/-- `availableWorkspaces` memo in App.tsx: distinct non-empty tags in
order of the recency of their most recently updated member note. -/
def availableWorkspaces (db : List Note) : List String :=
  collectWorkspaces (sortNotes db) []

/-- `navigableWorkspaces` memo in App.tsx: `[null, ...availableWorkspaces]`. -/
def navigableWorkspaces (db : List Note) : List (Option String) :=
  none :: (availableWorkspaces db).map some

section SortNotesLemmas

theorem mem_insertNote {a x : Note} {l : List Note} :
    x ∈ insertNote a l ↔ x = a ∨ x ∈ l := by
  induction l with
  | nil => simp [insertNote]
  | cons b rest ih =>
    by_cases h : b.updatedAt < a.updatedAt
    · simp [insertNote, h]
    · simp [insertNote, h, ih]
      tauto

theorem mem_sortNotes {x : Note} {l : List Note} :
    x ∈ sortNotes l ↔ x ∈ l := by
  induction l with
  | nil => simp [sortNotes]
  | cons b rest ih =>
    simp only [sortNotes, List.foldr] at *
    rw [mem_insertNote, ih]
    simp

theorem insertNote_ne_nil (a : Note) (l : List Note) : insertNote a l ≠ [] := by
  cases l with
  | nil => simp [insertNote]
  | cons b rest =>
    unfold insertNote
    split <;> simp

theorem sortNotes_ne_nil {l : List Note} (h : l ≠ []) : sortNotes l ≠ [] := by
  cases l with
  | nil => exact absurd rfl h
  | cons b rest => exact insertNote_ne_nil b (sortNotes rest)

theorem insertNote_sorted (a : Note) {l : List Note}
    (hl : l.Sorted (fun x y => y.updatedAt ≤ x.updatedAt)) :
    (insertNote a l).Sorted (fun x y => y.updatedAt ≤ x.updatedAt) := by
  induction l with
  | nil => simp [insertNote]
  | cons b rest ih =>
    rw [List.sorted_cons] at hl
    by_cases hba : b.updatedAt < a.updatedAt
    · rw [insertNote, if_pos hba, List.sorted_cons]
      constructor
      · intro y hy
        rcases List.mem_cons.mp hy with h | h
        · subst h; omega
        · have := hl.1 y h; omega
      · rw [List.sorted_cons]
        exact hl
    · rw [insertNote, if_neg hba, List.sorted_cons]
      constructor
      · intro y hy
        rcases mem_insertNote.mp hy with h | h
        · subst h; omega
        · exact hl.1 y h
      · exact ih hl.2

/-- `sortNotes` produces a list sorted by `updatedAt` descending. -/
theorem sortNotes_sorted (l : List Note) :
    (sortNotes l).Sorted (fun x y => y.updatedAt ≤ x.updatedAt) := by
  induction l with
  | nil => simp [sortNotes]
  | cons b rest ih => exact insertNote_sorted b ih

/-- The head of `sortNotes l` is a member of `l` whose `updatedAt`
dominates every member of `l`. -/
theorem sortNotes_head_max {l : List Note} (h : l ≠ []) :
    ∃ hd, (sortNotes l).head? = some hd ∧ hd ∈ l ∧
      ∀ y ∈ l, y.updatedAt ≤ hd.updatedAt := by
  have hne := sortNotes_ne_nil h
  obtain ⟨hd, tl, heq⟩ := List.exists_cons_of_ne_nil hne
  refine ⟨hd, by simp [heq], ?_, ?_⟩
  · have : hd ∈ sortNotes l := by simp [heq]
    exact mem_sortNotes.mp this
  · intro y hy
    have hy' : y ∈ sortNotes l := mem_sortNotes.mpr hy
    rw [heq] at hy'
    rcases List.mem_cons.mp hy' with h' | h'
    · subst h'; omega
    · have hs := sortNotes_sorted l
      rw [heq, List.sorted_cons] at hs
      exact hs.1 y h'

end SortNotesLemmas

section WorkspaceLemmas

theorem collectWorkspaces_nodup :
    ∀ (l : List Note) (acc : List String), acc.Nodup →
      (collectWorkspaces l acc).Nodup := by
  intro l
  induction l with
  | nil => intro acc h; simpa [collectWorkspaces] using h
  | cons n rest ih =>
    intro acc hacc
    unfold collectWorkspaces
    match hnw : n.workspace with
    | none => exact ih acc hacc
    | some w =>
      by_cases hw0 : w = ""
      · simp only [hw0, if_pos rfl]
        exact ih acc hacc
      · simp only [if_neg hw0]
        by_cases hmem : w ∈ acc
        · simp only [if_pos hmem]
          exact ih acc hacc
        · simp only [if_neg hmem]
          refine ih (acc ++ [w]) ?_
          simp [List.nodup_append, hacc, hmem]

theorem availableWorkspaces_nodup (db : List Note) :
    (availableWorkspaces db).Nodup :=
  collectWorkspaces_nodup _ [] (by simp)

theorem navigableWorkspaces_nodup (db : List Note) :
    (navigableWorkspaces db).Nodup := by
  unfold navigableWorkspaces
  refine List.nodup_cons.mpr ⟨by simp, ?_⟩
  exact (availableWorkspaces_nodup db).map (Option.some_injective _)

theorem collectWorkspaces_acc_append (l : List Note) :
    ∀ acc, ∃ ext, collectWorkspaces l acc = acc ++ ext := by
  induction l with
  | nil => intro acc; exact ⟨[], by simp [collectWorkspaces]⟩
  | cons n rest ih =>
    intro acc
    unfold collectWorkspaces
    match n.workspace with
    | none => exact ih acc
    | some w =>
      by_cases hw0 : w = ""
      · simpa [hw0] using ih acc
      · simp only [if_neg hw0]
        by_cases hmem : w ∈ acc
        · simpa [hmem] using ih acc
        · simp only [if_neg hmem]
          obtain ⟨ext, hext⟩ := ih (acc ++ [w])
          exact ⟨w :: ext, by simp [hext]⟩

end WorkspaceLemmas

/-- Substring test modelling the JS `hay.includes(pat)`. -/
def containsSubstring (hay pat : String) : Bool :=
  decide (List.IsInfix pat.toList hay.toList)

/-- JS `String.prototype.trim`: strip whitespace from both ends. -/
def jsTrim (s : String) : String :=
  String.mk (((s.toList.dropWhile Char.isWhitespace).reverse.dropWhile
    Char.isWhitespace).reverse)

/-- The `trimmedCmdKQuery` computation `cmdKSearchQuery.trim().slice(0, 20)`. -/
def trimmedQuery20 (s : String) : String :=
  String.mk ((jsTrim s).toList.take 20)

/-- The synthesized palette actions of `cmdKSuggestions`, as a tagged
variant carrying the parameters their `onAction` closures capture. -/
inductive CmdKAction where
  | createNote (q : String)
  | moveToWorkspace (w : String)
  | createWorkspace (q : String)
  | renameWorkspace (q : String)
  | unlink
deriving Repr, DecidableEq

/-- `type CmdKSuggestion` from App.tsx: an existing note or an action. -/
inductive CmdKSuggestion where
  | note (n : Note)
  | action (a : CmdKAction)
deriving Repr, DecidableEq

/-- The `cmdKSuggestions` memo from App.tsx.  The Fuse.js searches are
external; they enter as the `notesSearch`/`wsSearch` parameters, used
exactly where the code calls `notesFuse.search`/`workspaceFuse.search`
(only when the query is non-empty).  Note the `sortNotes notes` call
the code performs before building the final array, and the dead
conditional `currentWorkspace ? [] : []` in the create-workspace
branch, which yields `[]` either way. -/
def cmdKSuggestions (notesSearch : String → List Note → List Note)
    (wsSearch : String → List String → List String)
    (db : List Note) (cw : Option String) (currentNoteId : String)
    (query : String) : List CmdKSuggestion :=
  let wsNotes := workspaceNotes db cw
  let availWs := availableWorkspaces db
  let notes := if query = "" then wsNotes else notesSearch query wsNotes
  let workspaces := if query = "" then [] else wsSearch query availWs
  let currentNote := db.find? (fun n => n.id == currentNoteId)
  let q := trimmedQuery20 query
  let actions : List CmdKSuggestion :=
    (if q = "" then []
     else
       [CmdKSuggestion.action (CmdKAction.createNote q)] ++
       (match workspaces with
        | [] => []
        | w :: _ => [CmdKSuggestion.action (CmdKAction.moveToWorkspace w)]) ++
       (if availWs.contains q then []
        else [CmdKSuggestion.action (CmdKAction.createWorkspace q)]) ++
       [CmdKSuggestion.action (CmdKAction.renameWorkspace q)]) ++
    (match currentNote with
     | some n =>
       match n.workspace with
       | some w =>
         if w ≠ "" ∧ (q = "" ∨ containsSubstring "unlink note" q)
         then [CmdKSuggestion.action CmdKAction.unlink] else []
       | none => []
     | none => [])
  (sortNotes notes).map CmdKSuggestion.note ++ actions

/-- Plausible executable stand-in for the Fuse.js note search used in
concrete scenarios: exact-content matches (score 0) rank before
substring near-matches, as Fuse's score ordering does. -/
def fuseNotesModel (q : String) (l : List Note) : List Note :=
  l.filter (fun n => n.content == q) ++
    l.filter (fun n => n.content != q && containsSubstring n.content q)

/-- Stand-in for the tight (threshold 0.05) Fuse.js workspace search:
near-exact matches only. -/
def fuseWorkspacesModel (q : String) (l : List String) : List String :=
  l.filter (fun w => w == q)

/-- The palette and store state owned by App.tsx: note database,
active workspace filter (`none` is the JS `null`, "all notes"),
active note id, Deletion Stack, selected suggestion index (`none`
models a stored `NaN`), search query, open flag and the
`hasVimNavigated` chord flag. -/
structure AppState where
  database : List Note
  currentWorkspace : Option String
  currentNoteId : String
  freshlyDeletedNotes : List Note
  selectedIndex : Option Nat
  cmdKSearchQuery : String
  isCmdKMenuOpen : Bool
  hasVimNavigated : Bool
deriving Repr, DecidableEq

/-- Replace the `updatedAt` of the first note carrying `noteId`
(the JS code mutates the object returned by `database.find`). -/
def bumpFirst : List Note → String → Nat → List Note
  | [], _, _ => []
  | n :: rest, noteId, now =>
    if n.id = noteId then { n with updatedAt := now } :: rest
    else n :: bumpFirst rest noteId now

/-- Replace the `workspace` of the first note carrying `noteId`. -/
def setWorkspaceFirst : List Note → String → Option String → List Note
  | [], _, _ => []
  | n :: rest, noteId, w =>
    if n.id = noteId then { n with workspace := w } :: rest
    else n :: setWorkspaceFirst rest noteId w

/-- `openNote` from App.tsx: no-op on an empty or unknown id,
otherwise selects the note and stamps its `updatedAt` with the
current time. -/
def openNoteState (now : Nat) (s : AppState) (noteId : String) : AppState :=
  if noteId = "" then s
  else
    match s.database.find? (fun n => n.id == noteId) with
    | none => s
    | some _ =>
      { s with currentNoteId := noteId, database := bumpFirst s.database noteId now }

/-- `openNewNote` from App.tsx.  It appends a fresh note and selects
it; its trailing `openNote(newNote.id)` call reads the stale
`database` closure (which lacks the new note), so it is a no-op
unless the fresh id collides with an existing one, in which case its
`setDatabase(database)` overwrites the append. -/
def openNewNoteState (now : Nat) (freshId : String) (s : AppState)
    (content ws : String) : AppState :=
  let newNote : Note :=
    { id := freshId
      content := content
      updatedAt := now
      workspace := if ws = "" then s.currentWorkspace else some ws }
  if freshId ≠ "" ∧ (s.database.find? (fun n => n.id == freshId)).isSome then
    { s with database := bumpFirst s.database freshId now, currentNoteId := freshId }
  else
    { s with database := s.database ++ [newNote], currentNoteId := freshId }

/-- JS strict equality between a note's `workspace`
(`string | undefined`) and the filter (`string | null`): two strings
compare by value, and `undefined === null` is false. -/
def wsStrictEq : Option String → Option String → Bool
  | some a, some b => a == b
  | _, _ => false

/-- The bulk re-tagging map inside the rename-workspace `onAction`. -/
def renameWorkspaceOp (db : List Note) (cw : Option String) (q : String) :
    List Note :=
  db.map (fun n => if wsStrictEq n.workspace cw then { n with workspace := some q } else n)

/-- The `onAction` closures of the synthesized suggestions, as one
dispatcher; the returned `Bool` is the "close the palette" flag. -/
def applyCmdKAction (now : Nat) (freshId : String) (s : AppState) :
    CmdKAction → AppState × Bool
  | .createNote q =>
    let s₁ := openNewNoteState now freshId s q ""
    ({ s₁ with
        isCmdKMenuOpen := false
        selectedIndex := some 0
        cmdKSearchQuery := "" }, true)
  | .moveToWorkspace w =>
    match s.database.find? (fun n => n.id == s.currentNoteId) with
    | none => (s, true)
    | some cn =>
      let s₁ := { s with
        database := setWorkspaceFirst s.database cn.id (some w)
        currentWorkspace := some w
        selectedIndex := some 0 }
      let s₂ := openNoteState now s₁ cn.id
      ({ s₂ with cmdKSearchQuery := "" }, false)
  | .createWorkspace q =>
    let s₁ := openNewNoteState now freshId s "" q
    ({ s₁ with
        selectedIndex := some 0
        currentWorkspace := some q
        cmdKSearchQuery := "" }, false)
  | .renameWorkspace q =>
    ({ s with
        database := renameWorkspaceOp s.database s.currentWorkspace q
        currentWorkspace := some q
        selectedIndex := some 0
        cmdKSearchQuery := "" }, false)
  | .unlink =>
    match s.database.find? (fun n => n.id == s.currentNoteId) with
    | none => (s, false)
    | some cn =>
      ({ s with
          database := sortNotes (setWorkspaceFirst s.database cn.id none)
          currentWorkspace := none }, false)

/-- `runCmdKSuggestion` from App.tsx: `undefined` reports "close",
a note suggestion opens the note and reports "close", an action runs
its effect. -/
def runCmdKSuggestion (now : Nat) (freshId : String) (s : AppState) :
    Option CmdKSuggestion → AppState × Bool
  | none => (s, true)
  | some (.note n) => (openNoteState now s n.id, true)
  | some (.action a) => applyCmdKAction now freshId s a

/-- The suggestion list recomputed from the current state. -/
def suggestionsOf (ns : String → List Note → List Note)
    (ws : String → List String → List String) (s : AppState) :
    List CmdKSuggestion :=
  cmdKSuggestions ns ws s.database s.currentWorkspace s.currentNoteId
    s.cmdKSearchQuery

/-- `cmdKSuggestions[selectedCmdKSuggestionIndex]`: indexing with a
stored `NaN` (or out of bounds) yields `undefined`. -/
def selectedSuggestion (ns : String → List Note → List Note)
    (ws : String → List String → List String) (s : AppState) :
    Option CmdKSuggestion :=
  match s.selectedIndex with
  | none => none
  | some i => (suggestionsOf ns ws s).get? i

/-- The Enter branch of `handleKeyDown`: run the selected suggestion;
when it reports "close", close the palette and reset the index to 0. -/
def commitEnter (ns : String → List Note → List Note)
    (ws : String → List String → List String)
    (now : Nat) (freshId : String) (s : AppState) : AppState :=
  let r := runCmdKSuggestion now freshId s (selectedSuggestion ns ws s)
  if r.2 then { r.1 with isCmdKMenuOpen := false, selectedIndex := some 0 }
  else r.1

/-- `handleKeyUp` from App.tsx on release of the modifier key: when a
chord navigation is pending and the palette is open, run the selected
suggestion (defaulting to "close" when the list is empty), close the
palette if asked — without touching the index — and clear the chord
flag. -/
def keyUpCommit (ns : String → List Note → List Note)
    (ws : String → List String → List String)
    (now : Nat) (freshId : String) (s : AppState) : AppState :=
  if s.hasVimNavigated = true ∧ s.isCmdKMenuOpen = true then
    let r :=
      if 0 < (suggestionsOf ns ws s).length then
        runCmdKSuggestion now freshId s (selectedSuggestion ns ws s)
      else (s, true)
    let s'' := if r.2 then { r.1 with isCmdKMenuOpen := false } else r.1
    { s'' with hasVimNavigated := false }
  else s

/-- The ArrowDown index arithmetic `(i + 1) % length` under JS number
semantics: `x % 0` is `NaN` (`none`), and `NaN` propagates. -/
def jsNavDown (i : Option Nat) (n : Nat) : Option Nat :=
  match i with
  | none => none
  | some i => if n = 0 then none else some ((i + 1) % n)

/-- The ArrowUp index arithmetic `(i - 1 + length) % length` under JS
number semantics. -/
def jsNavUp (i : Option Nat) (n : Nat) : Option Nat :=
  match i with
  | none => none
  | some i => if n = 0 then none else some ((i + n - 1) % n)

/-- The ArrowDown branch of `handleKeyDown` while the palette is open. -/
def navDownState (ns : String → List Note → List Note)
    (ws : String → List String → List String) (s : AppState) : AppState :=
  if s.isCmdKMenuOpen then
    { s with selectedIndex := jsNavDown s.selectedIndex (suggestionsOf ns ws s).length }
  else s

/-- The palette-open chord: reset index, open, clear query. -/
def openPalette (s : AppState) : AppState :=
  { s with selectedIndex := some 0, isCmdKMenuOpen := true, cmdKSearchQuery := "" }

/-- The search input `onChange`: update the query, reset the index. -/
def queryEdit (s : AppState) (q : String) : AppState :=
  { s with cmdKSearchQuery := q, selectedIndex := some 0 }

/-- `deleteNote` from App.tsx: no-op on an unknown id; otherwise push
the removed record on the Deletion Stack, drop it from the database,
and if it was active fall back to the first note of the whole updated
database (`updatedDatabase[0]?.id || ''`). -/
def deleteOp (s : AppState) (noteId : String) : AppState :=
  match s.database.find? (fun n => n.id == noteId) with
  | none => s
  | some dn =>
    let db' := s.database.filter (fun n => ¬ n.id = noteId)
    { s with
      freshlyDeletedNotes := s.freshlyDeletedNotes ++ [dn]
      database := db'
      currentNoteId :=
        if s.currentNoteId = noteId then
          (match db'.head? with | some n => n.id | none => "")
        else s.currentNoteId }

/-- The `currentNote` fallback `useEffect` from App.tsx: keep the
active note if it is in the current filter, otherwise select
`workspaceNotes[0].id` — which throws when the filtered list is
empty (`none`). -/
def fallbackEffect (s : AppState) : Option AppState :=
  let wsn := workspaceNotes s.database s.currentWorkspace
  match wsn.find? (fun n => n.id == s.currentNoteId) with
  | some _ => some s
  | none =>
    match wsn.head? with
    | some n => some { s with currentNoteId := n.id }
    | none => none

/-- Deletion as observed by the app: `deleteNote` followed by the
fallback effect that reacts to the changed state. -/
def deleteThenFallback (s : AppState) (noteId : String) : Option AppState :=
  fallbackEffect (deleteOp s noteId)

/-- The modifier+Z branch of `handleKeyDown`: while the palette is
open and the Deletion Stack is non-empty, pop the stack and re-insert
the popped note (the database is re-sorted by recency). -/
def undoKey (s : AppState) : AppState :=
  if s.isCmdKMenuOpen then
    match s.freshlyDeletedNotes.getLast? with
    | none => s
    | some top =>
      { s with
        freshlyDeletedNotes := s.freshlyDeletedNotes.dropLast
        database := sortNotes (s.database ++ [top]) }
  else s

/-- JS `Array.prototype.indexOf`, with `none` for `-1`. -/
def jsIndexOf : List (Option String) → Option String → Option Nat
  | [], _ => none
  | y :: rest, x => if y = x then some 0 else (jsIndexOf rest x).map (· + 1)

/-- The ArrowRight workspace-cycling branch of `handleKeyDown`: move
one step through the cyclic navigable workspace sequence (a missing
index — the warned branch — leaves the filter unchanged, and so does
landing on the current value). -/
def nextWorkspaceStep (db : List Note) (cur : Option String) : Option String :=
  let nav := navigableWorkspaces db
  match jsIndexOf nav cur with
  | none => cur
  | some i =>
    let nxt := nav.getD ((i + 1) % nav.length) none
    if nxt ≠ cur then nxt else cur

/-- A reachable open-palette state with zero suggestions: one
untagged note, query " " (the whitespace query fuzzy-matches nothing
and trims to the empty action query, and the untagged active note
offers no unlink). -/
def exC2State : AppState :=
  { database := [{ id := "a", content := "hello", updatedAt := 5, workspace := none }]
    currentWorkspace := none
    currentNoteId := "a"
    freshlyDeletedNotes := []
    selectedIndex := some 0
    cmdKSearchQuery := " "
    isCmdKMenuOpen := true
    hasVimNavigated := false }

/-- C2: for a positive suggestion count `n`, Up/Down navigation moves
`selectedIndex` cyclically modulo `n`, wrapping at both ends and
staying inside `[0, n)`.  But when `n = 0` the handler is not a
no-op: on the concrete reachable state `exC2State` (0 suggestions,
`selectedIndex = 0`) ArrowDown computes `(0 + 1) % 0`, which is `NaN`
in JS, and stores it as the new `selectedIndex` (`none`), changing
the index to an invalid value instead of leaving it unchanged. -/
theorem cmdk_navigation_cyclic_and_nan :
    (∀ i n, 0 < n →
      jsNavDown (some i) n = some ((i + 1) % n) ∧
      jsNavUp (some i) n = some ((i + n - 1) % n) ∧
      (i + 1) % n < n ∧ (i + n - 1) % n < n ∧
      jsNavDown (some (n - 1)) n = some 0 ∧
      jsNavUp (some 0) n = some (n - 1)) ∧
    (suggestionsOf fuseNotesModel fuseWorkspacesModel exC2State).length = 0 ∧
    navDownState fuseNotesModel fuseWorkspacesModel exC2State =
      { exC2State with selectedIndex := none } := by
  refine ⟨fun i n hn => ?_, by decide, by decide⟩
  have hn0 : n ≠ 0 := Nat.pos_iff_ne_zero.mp hn
  refine ⟨by simp [jsNavDown, hn0], by simp [jsNavUp, hn0],
    Nat.mod_lt _ hn, Nat.mod_lt _ hn, ?_, ?_⟩
  · have h1 : n - 1 + 1 = n := Nat.succ_pred_eq_of_pos hn
    simp [jsNavDown, hn0, h1, Nat.mod_self]
  · have h1 : 0 + n - 1 = n - 1 := by omega
    simp [jsNavUp, hn0, h1, Nat.mod_eq_of_lt (by omega : n - 1 < n)]

/-- Witness for the cyclic part of `cmdk_navigation_cyclic_and_nan`
at `i = 1`, `n = 2`. -/
theorem cmdk_navigation_witness :
    0 < 2 ∧ jsNavDown (some 1) 2 = some ((1 + 1) % 2) :=
  ⟨by decide, ((cmdk_navigation_cyclic_and_nan.1 1 2 (by decide)).1)⟩

/-- Closed state: one note tagged "w", filter "all", palette closed. -/
def exC3Start : AppState :=
  { database := [{ id := "a", content := "hello", updatedAt := 5, workspace := some "w" }]
    currentWorkspace := none
    currentNoteId := "a"
    freshlyDeletedNotes := []
    selectedIndex := some 1
    cmdKSearchQuery := "x"
    isCmdKMenuOpen := false
    hasVimNavigated := false }

/-- C3: the in-bounds invariant is violated by a reachable
transition sequence.  From `exC3Start`, open the palette (index 0,
query cleared; suggestions are the note and the unlink action, n = 2),
ArrowDown to index 1 (valid), then Enter commits the unlink action:
its effect keeps the palette open and — unlike every other keep-open
action — does not reset `selectedIndex`, so the new state has
suggestion count n = 1 with `selectedIndex = 1 ∉ [0, 1)`. -/
theorem unlink_commit_index_out_of_bounds :
    (suggestionsOf fuseNotesModel fuseWorkspacesModel
        (navDownState fuseNotesModel fuseWorkspacesModel
          (openPalette exC3Start))).length = 2 ∧
    (navDownState fuseNotesModel fuseWorkspacesModel
        (openPalette exC3Start)).selectedIndex = some 1 ∧
    (commitEnter fuseNotesModel fuseWorkspacesModel 10 "f"
        (navDownState fuseNotesModel fuseWorkspacesModel
          (openPalette exC3Start))).isCmdKMenuOpen = true ∧
    (suggestionsOf fuseNotesModel fuseWorkspacesModel
        (commitEnter fuseNotesModel fuseWorkspacesModel 10 "f"
          (navDownState fuseNotesModel fuseWorkspacesModel
            (openPalette exC3Start)))).length = 1 ∧
    (commitEnter fuseNotesModel fuseWorkspacesModel 10 "f"
        (navDownState fuseNotesModel fuseWorkspacesModel
          (openPalette exC3Start))).selectedIndex = some 1 := by
  decide

/-- C4, amended: when the active note is deleted and at least one
note remains in the current workspace filter, the combination of
`deleteNote` and the fallback effect removes the note, pushes it on
the Deletion Stack, and makes the first remaining note of the filter
active. -/
theorem delete_active_note_fallback
    (s : AppState) (dn : Note)
    (hcur : s.database.find? (fun n => n.id == s.currentNoteId) = some dn)
    (hnodup : (s.database.map (fun n => n.id)).Nodup)
    (hrem : workspaceNotes (deleteOp s s.currentNoteId).database
      s.currentWorkspace ≠ []) :
    (deleteOp s s.currentNoteId).database =
        s.database.filter (fun n => ¬ n.id = s.currentNoteId) ∧
      (deleteOp s s.currentNoteId).freshlyDeletedNotes =
        s.freshlyDeletedNotes ++ [dn] ∧
      ∃ s' n₀,
        deleteThenFallback s s.currentNoteId = some s' ∧
        (workspaceNotes (deleteOp s s.currentNoteId).database
          s.currentWorkspace).head? = some n₀ ∧
        s'.currentNoteId = n₀.id ∧
        s'.database = (deleteOp s s.currentNoteId).database ∧
        s'.freshlyDeletedNotes = (deleteOp s s.currentNoteId).freshlyDeletedNotes := by
  have hdel : deleteOp s s.currentNoteId =
      { s with
        freshlyDeletedNotes := s.freshlyDeletedNotes ++ [dn]
        database := s.database.filter (fun n => ¬ n.id = s.currentNoteId)
        currentNoteId :=
          (match (s.database.filter (fun n => ¬ n.id = s.currentNoteId)).head? with
           | some n => n.id | none => "") } := by
    unfold deleteOp
    rw [hcur]
    simp
  set db' := s.database.filter (fun n => ¬ n.id = s.currentNoteId) with hdb'
  refine ⟨by rw [hdel], by rw [hdel], ?_⟩
  have hnodup' : (db'.map (fun n => n.id)).Nodup := by
    refine List.Nodup.sublist ?_ hnodup
    exact List.Sublist.map _ (List.filter_sublist _)
  rw [hdel] at hrem ⊢
  unfold deleteThenFallback
  rw [hdel]
  cases hdbe : db' with
  | nil =>
    exfalso
    apply hrem
    simp only [hdbe]
    cases s.currentWorkspace <;> simp [workspaceNotes]
  | cons X rest =>
    rw [hdbe] at hrem
    simp only [hdbe, List.head?]
    unfold fallbackEffect
    simp only []
    cases hcw : s.currentWorkspace with
    | none =>
      simp only [workspaceNotes]
      have hfind : (X :: rest).find? (fun n => n.id == X.id) = some X := by
        simp [List.find?]
      simp only [hcw] at hrem ⊢
      simp only [workspaceNotes] at hrem ⊢
      rw [hfind]
      exact ⟨_, X, rfl, by simp, by simp, by simp [hdbe], by simp⟩
    | some w =>
      simp only [hcw] at hrem ⊢
      simp only [workspaceNotes] at hrem ⊢
      by_cases hpX : (X.workspace == some w) = true
      · have hws : (X :: rest).filter (fun n => n.workspace == some w) =
            X :: rest.filter (fun n => n.workspace == some w) := by
          simp [List.filter, hpX]
        rw [hws]
        have hfind : (X :: rest.filter (fun n => n.workspace == some w)).find?
            (fun n => n.id == X.id) = some X := by
          simp [List.find?]
        rw [hfind]
        exact ⟨_, X, rfl, by simp, by simp, by simp [hdbe], by simp⟩
      · have hws : (X :: rest).filter (fun n => n.workspace == some w) =
            rest.filter (fun n => n.workspace == some w) := by
          simp [List.filter, hpX]
        rw [hws] at hrem ⊢
        have hfind : (rest.filter (fun n => n.workspace == some w)).find?
            (fun n => n.id == X.id) = none := by
          rw [List.find?_eq_none]
          intro y hy
          have hyrest : y ∈ rest := List.mem_of_mem_filter hy
          have : y.id ≠ X.id := by
            have h1 : (X.id :: rest.map (fun n => n.id)).Nodup := by
              have := hnodup'
              rw [hdbe] at this
              simpa using this
            have h2 := (List.nodup_cons.mp h1).1
            intro he
            exact h2 (he ▸ List.mem_map_of_mem _ hyrest)
          simpa using this
        rw [hfind]
        obtain ⟨n₀, tl, hfe⟩ := List.exists_cons_of_ne_nil hrem
        rw [hfe]
        exact ⟨_, n₀, rfl, rfl, by simp, by simp [hdbe], by simp⟩

/-- An open-palette state whose workspace filter "w" holds exactly
one note, the active one. -/
def exC4State : AppState :=
  { database := [{ id := "a", content := "h", updatedAt := 0, workspace := some "w" }]
    currentWorkspace := some "w"
    currentNoteId := "a"
    freshlyDeletedNotes := []
    selectedIndex := some 0
    cmdKSearchQuery := ""
    isCmdKMenuOpen := true
    hasVimNavigated := false }

/-- C4, counterexample: deleting the active (and only) note of the
filtered workspace removes it, but the claimed "empty state" is never
reached — the fallback effect evaluates `workspaceNotes[0].id` on an
empty list and throws (`none`), so no resulting state exists at all. -/
theorem delete_active_empty_filter_counterexample :
    (deleteOp exC4State "a").database = [] ∧
      deleteThenFallback exC4State "a" = none := by
  decide

/-- A state with two notes in workspace "w", the first being active. -/
def exC4Witness : AppState :=
  { database := [{ id := "a", content := "", updatedAt := 0, workspace := some "w" },
                 { id := "b", content := "", updatedAt := 1, workspace := some "w" }]
    currentWorkspace := some "w"
    currentNoteId := "a"
    freshlyDeletedNotes := []
    selectedIndex := some 0
    cmdKSearchQuery := ""
    isCmdKMenuOpen := true
    hasVimNavigated := false }

/-- Witness for `delete_active_note_fallback` on `exC4Witness`. -/
theorem delete_active_note_fallback_witness :
    (exC4Witness.database.find? (fun n => n.id == exC4Witness.currentNoteId) =
        some { id := "a", content := "", updatedAt := 0, workspace := some "w" }) ∧
      (exC4Witness.database.map (fun n => n.id)).Nodup ∧
      workspaceNotes (deleteOp exC4Witness exC4Witness.currentNoteId).database
        exC4Witness.currentWorkspace ≠ [] ∧
      ((deleteOp exC4Witness exC4Witness.currentNoteId).database =
          exC4Witness.database.filter
            (fun n => ¬ n.id = exC4Witness.currentNoteId) ∧
        (deleteOp exC4Witness exC4Witness.currentNoteId).freshlyDeletedNotes =
          exC4Witness.freshlyDeletedNotes ++
            [{ id := "a", content := "", updatedAt := 0, workspace := some "w" }] ∧
        ∃ s' n₀,
          deleteThenFallback exC4Witness exC4Witness.currentNoteId = some s' ∧
          (workspaceNotes (deleteOp exC4Witness exC4Witness.currentNoteId).database
            exC4Witness.currentWorkspace).head? = some n₀ ∧
          s'.currentNoteId = n₀.id ∧
          s'.database = (deleteOp exC4Witness exC4Witness.currentNoteId).database ∧
          s'.freshlyDeletedNotes =
            (deleteOp exC4Witness exC4Witness.currentNoteId).freshlyDeletedNotes) :=
  ⟨by decide, by decide, by decide,
   delete_active_note_fallback exC4Witness
     { id := "a", content := "", updatedAt := 0, workspace := some "w" }
     (by decide) (by decide) (by decide)⟩

/-- C5: undo immediately after delete re-inserts the removed note
bit-identically (the very record that was removed becomes a member of
the database again) and restores the Deletion Stack, and undo with an
empty stack changes nothing at all. -/
theorem undo_after_delete_restores (s : AppState) (id : String) (dn : Note)
    (hopen : s.isCmdKMenuOpen = true)
    (hfound : s.database.find? (fun n => n.id == id) = some dn) :
    dn ∈ (undoKey (deleteOp s id)).database ∧
      (undoKey (deleteOp s id)).freshlyDeletedNotes = s.freshlyDeletedNotes ∧
      (∀ t : AppState, t.freshlyDeletedNotes = [] → undoKey t = t) := by
  have hdel : deleteOp s id =
      { s with
        freshlyDeletedNotes := s.freshlyDeletedNotes ++ [dn]
        database := s.database.filter (fun n => ¬ n.id = id)
        currentNoteId :=
          if s.currentNoteId = id then
            (match (s.database.filter (fun n => ¬ n.id = id)).head? with
             | some n => n.id | none => "")
          else s.currentNoteId } := by
    unfold deleteOp
    rw [hfound]
  have hlast : (s.freshlyDeletedNotes ++ [dn]).getLast? = some dn :=
    List.getLast?_concat _
  have hdropl : (s.freshlyDeletedNotes ++ [dn]).dropLast = s.freshlyDeletedNotes :=
    List.dropLast_concat
  refine ⟨?_, ?_, ?_⟩
  · rw [hdel]
    simp [undoKey, hopen, hlast, mem_sortNotes]
  · rw [hdel]
    simp [undoKey, hopen, hlast, hdropl]
  · intro t ht
    simp [undoKey, ht]

/-- An open-palette state with two untagged notes. -/
def exC5State : AppState :=
  { database := [{ id := "a", content := "x", updatedAt := 3, workspace := none },
                 { id := "b", content := "y", updatedAt := 7, workspace := none }]
    currentWorkspace := none
    currentNoteId := "b"
    freshlyDeletedNotes := []
    selectedIndex := some 0
    cmdKSearchQuery := ""
    isCmdKMenuOpen := true
    hasVimNavigated := false }

/-- Witness for `undo_after_delete_restores` on `exC5State`, deleting
and then undoing note "a". -/
theorem undo_after_delete_restores_witness :
    exC5State.isCmdKMenuOpen = true ∧
      exC5State.database.find? (fun n => n.id == "a") =
        some { id := "a", content := "x", updatedAt := 3, workspace := none } ∧
      ({ id := "a", content := "x", updatedAt := 3, workspace := none } ∈
          (undoKey (deleteOp exC5State "a")).database ∧
        (undoKey (deleteOp exC5State "a")).freshlyDeletedNotes =
          exC5State.freshlyDeletedNotes ∧
        (∀ t : AppState, t.freshlyDeletedNotes = [] → undoKey t = t)) :=
  ⟨by decide, by decide,
   undo_after_delete_restores exC5State "a"
     { id := "a", content := "x", updatedAt := 3, workspace := none }
     (by decide) (by decide)⟩

/-- The spec's notion of a note's workspace equalling the currently
active filter tag: the filter carries a tag and the note carries the
same tag. -/
def specMatchesFilter (nw cw : Option String) : Prop :=
  ∃ t, cw = some t ∧ nw = some t

/-- The JS strict comparison used by the rename effect agrees with
the spec's "workspace equals the currently active filter tag". -/
theorem wsStrictEq_iff (nw cw : Option String) :
    wsStrictEq nw cw = true ↔ specMatchesFilter nw cw := by
  cases nw with
  | none => cases cw <;> simp [wsStrictEq, specMatchesFilter]
  | some a =>
    cases cw with
    | none => simp [wsStrictEq, specMatchesFilter]
    | some b =>
      simp only [wsStrictEq, beq_iff_eq, specMatchesFilter, Option.some.injEq]
      constructor
      · intro hab
        exact ⟨b, rfl, hab⟩
      · rintro ⟨t, hb, ha⟩
        exact ha.trans hb.symm

/-- C6: the rename-workspace effect re-tags to `q` exactly the notes
whose `workspace` equals the active filter tag (pointwise: a note
matching the filter is replaced by the same record re-tagged with
`q`, and a note not matching it is left unchanged), switches the
filter to `q`, and keeps the palette open. -/
theorem rename_workspace_retags (s : AppState) (q : String)
    (now : Nat) (fid : String) (hq : q ≠ "") :
    (applyCmdKAction now fid s (CmdKAction.renameWorkspace q)).1.currentWorkspace
        = some q ∧
      (applyCmdKAction now fid s (CmdKAction.renameWorkspace q)).2 = false ∧
      (applyCmdKAction now fid s (CmdKAction.renameWorkspace q)).1.database.length
        = s.database.length ∧
      ∀ i, (h : i < s.database.length) →
        (specMatchesFilter (s.database[i]).workspace s.currentWorkspace →
          (applyCmdKAction now fid s
              (CmdKAction.renameWorkspace q)).1.database[i]? =
            some { s.database[i] with workspace := some q }) ∧
        (¬ specMatchesFilter (s.database[i]).workspace s.currentWorkspace →
          (applyCmdKAction now fid s
              (CmdKAction.renameWorkspace q)).1.database[i]? =
            some (s.database[i])) := by
  refine ⟨rfl, rfl, by simp [applyCmdKAction, renameWorkspaceOp], ?_⟩
  intro i h
  have hget : (applyCmdKAction now fid s
      (CmdKAction.renameWorkspace q)).1.database[i]? =
      some (if wsStrictEq (s.database[i]).workspace s.currentWorkspace
        then { s.database[i] with workspace := some q }
        else s.database[i]) := by
    show (renameWorkspaceOp s.database s.currentWorkspace q)[i]? = _
    unfold renameWorkspaceOp
    rw [List.getElem?_map, List.getElem?_eq_getElem h]
    rfl
  constructor
  · intro hm
    rw [hget, if_pos ((wsStrictEq_iff _ _).mpr hm)]
  · intro hm
    rw [hget, if_neg (fun hb => hm ((wsStrictEq_iff _ _).mp hb))]

/-- A state with notes in workspaces "w", "v" and one untagged,
filtered on "w". -/
def exC6State : AppState :=
  { database := [{ id := "a", content := "", updatedAt := 1, workspace := some "w" },
                 { id := "b", content := "", updatedAt := 2, workspace := some "v" },
                 { id := "c", content := "", updatedAt := 3, workspace := none }]
    currentWorkspace := some "w"
    currentNoteId := "a"
    freshlyDeletedNotes := []
    selectedIndex := some 0
    cmdKSearchQuery := "w2"
    isCmdKMenuOpen := true
    hasVimNavigated := false }

/-- Witness for `rename_workspace_retags` on `exC6State` with query
"w2". -/
theorem rename_workspace_retags_witness :
    ("w2" : String) ≠ "" ∧
      ((applyCmdKAction 9 "f" exC6State
            (CmdKAction.renameWorkspace "w2")).1.currentWorkspace = some "w2" ∧
        (applyCmdKAction 9 "f" exC6State (CmdKAction.renameWorkspace "w2")).2
          = false ∧
        (applyCmdKAction 9 "f" exC6State
            (CmdKAction.renameWorkspace "w2")).1.database.length
          = exC6State.database.length ∧
        ∀ i, (h : i < exC6State.database.length) →
          (specMatchesFilter (exC6State.database[i]).workspace
              exC6State.currentWorkspace →
            (applyCmdKAction 9 "f" exC6State
                (CmdKAction.renameWorkspace "w2")).1.database[i]? =
              some { exC6State.database[i] with workspace := some "w2" }) ∧
          (¬ specMatchesFilter (exC6State.database[i]).workspace
              exC6State.currentWorkspace →
            (applyCmdKAction 9 "f" exC6State
                (CmdKAction.renameWorkspace "w2")).1.database[i]? =
              some (exC6State.database[i]))) :=
  ⟨by decide, rename_workspace_retags exC6State "w2" 9 "f" (by decide)⟩

/-- On a duplicate-free list, `indexOf` of the `i`-th element is `i`. -/
theorem jsIndexOf_get (l : List (Option String)) (hn : l.Nodup) :
    ∀ i, (h : i < l.length) → jsIndexOf l (l.get ⟨i, h⟩) = some i := by
  induction l with
  | nil => intro i h; exact absurd h (by simp)
  | cons y rest ih =>
    intro i h
    cases i with
    | zero => simp [jsIndexOf]
    | succ j =>
      have hj : j < rest.length := by simpa using h
      have hy : y ∉ rest := (List.nodup_cons.mp hn).1
      have hne : y ≠ rest.get ⟨j, hj⟩ := by
        intro he
        exact hy (he ▸ rest.get_mem j hj)
      have : (y :: rest).get ⟨j + 1, h⟩ = rest.get ⟨j, hj⟩ := rfl
      rw [this]
      simp only [jsIndexOf, if_neg hne]
      rw [ih (List.nodup_cons.mp hn).2 j hj]
      rfl

/-- One workspace-cycling step from the `j`-th navigable entry lands
on the `(j+1) mod len`-th entry. -/
theorem nextWorkspaceStep_getD (db : List Note) (j : Nat)
    (hj : j < (navigableWorkspaces db).length) :
    nextWorkspaceStep db ((navigableWorkspaces db).getD j none) =
      (navigableWorkspaces db).getD
        ((j + 1) % (navigableWorkspaces db).length) none := by
  have hlen : 0 < (navigableWorkspaces db).length := by
    simp [navigableWorkspaces]
  have hget : (navigableWorkspaces db).getD j none =
      (navigableWorkspaces db).get ⟨j, hj⟩ := by
    simp [List.getD_eq_getElem?_getD, List.getElem?_eq_getElem hj]
  simp only [nextWorkspaceStep]
  rw [hget, jsIndexOf_get _ (navigableWorkspaces_nodup db) j hj]
  simp only []
  have hj1 : (j + 1) % (navigableWorkspaces db).length <
      (navigableWorkspaces db).length := Nat.mod_lt _ hlen
  have hget1 : (navigableWorkspaces db).getD
      ((j + 1) % (navigableWorkspaces db).length) none =
      (navigableWorkspaces db).get
        ⟨(j + 1) % (navigableWorkspaces db).length, hj1⟩ := by
    simp [List.getD_eq_getElem?_getD, List.getElem?_eq_getElem hj1]
  rw [hget1]
  split
  · rfl
  · next heq =>
    rw [not_not] at heq
    exact heq.symm

/-- After `t` cycling steps from "all", the filter is the
`t mod len`-th navigable entry. -/
theorem nextWorkspaceStep_iterate (db : List Note) :
    ∀ t, (nextWorkspaceStep db)^[t] none =
      (navigableWorkspaces db).getD
        (t % (navigableWorkspaces db).length) none := by
  intro t
  induction t with
  | zero =>
    have : 0 % (navigableWorkspaces db).length = 0 := by
      simp
    simp [this, navigableWorkspaces]
  | succ t ih =>
    rw [Function.iterate_succ_apply', ih]
    have hj : t % (navigableWorkspaces db).length <
        (navigableWorkspaces db).length := by
      apply Nat.mod_lt
      simp [navigableWorkspaces]
    rw [nextWorkspaceStep_getD db _ hj, Nat.mod_add_mod]

/-- C7: starting from the "all" filter (`none`) and applying the
next-workspace transition `len(navigableWorkspaces)` times returns
the active filter to "all" — workspace cycling is cyclic over
`[null] ++ workspaces`. -/
theorem workspace_cycling_returns_to_all (db : List Note) :
    (nextWorkspaceStep db)^[(navigableWorkspaces db).length] none = none := by
  rw [nextWorkspaceStep_iterate db, Nat.mod_self]
  simp [navigableWorkspaces]

/-- A JSON value, for the import/export boundary (spec section 6).
`JSON.stringify`/`JSON.parse` and the LZ-string codec are external;
the note-level structure of the serialized payload is modelled here
and the string/compression layers stay abstract interface parameters. -/
inductive Json where
  | jnull
  | jstr (s : String)
  | jnum (n : Nat)
  | jarr (xs : List Json)
  | jobj (fields : List (String × Json))

/-- Field lookup in a JSON object (first binding wins). -/
def jlookup (fs : List (String × Json)) (k : String) : Option Json :=
  (fs.find? (fun p => p.1 == k)).map (fun p => p.2)

/-- JSON image of a note under `JSON.stringify`: the `workspace` key
is omitted when the field is `undefined`. -/
def noteToJson (n : Note) : Json :=
  Json.jobj ([("id", Json.jstr n.id), ("content", Json.jstr n.content),
    ("updatedAt", Json.jnum n.updatedAt)] ++
    (match n.workspace with
     | some w => [("workspace", Json.jstr w)]
     | none => []))

/-- Reading a note record back from parsed JSON (the import path does
no validation; this is the typed shape `setDatabase(content)` relies
on). -/
def jsonToNote (j : Json) : Option Note :=
  match j with
  | Json.jobj fs =>
    match jlookup fs "id", jlookup fs "content", jlookup fs "updatedAt" with
    | some (Json.jstr i), some (Json.jstr c), some (Json.jnum u) =>
      match jlookup fs "workspace" with
      | some (Json.jstr w) => some { id := i, content := c, updatedAt := u, workspace := some w }
      | none => some { id := i, content := c, updatedAt := u, workspace := none }
      | some _ => none
    | _, _, _ => none
  | _ => none

/-- JSON image of the whole note list. -/
def notesToJson (l : List Note) : Json :=
  Json.jarr (l.map noteToJson)

/-- Element-wise reading of a JSON array of notes. -/
def jsonListToNotes : List Json → Option (List Note)
  | [] => some []
  | j :: rest =>
    match jsonToNote j, jsonListToNotes rest with
    | some n, some ns => some (n :: ns)
    | _, _ => none

/-- Reading a note list back from parsed JSON. -/
def notesFromJson : Json → Option (List Note)
  | Json.jarr xs => jsonListToNotes xs
  | _ => none

theorem jsonToNote_noteToJson (n : Note) : jsonToNote (noteToJson n) = some n := by
  obtain ⟨i, c, u, w⟩ := n
  cases w <;> simp [noteToJson, jsonToNote, jlookup, List.find?]

theorem notesFromJson_notesToJson (l : List Note) :
    notesFromJson (notesToJson l) = some l := by
  unfold notesFromJson notesToJson
  induction l with
  | nil => simp [jsonListToNotes]
  | cons n rest ih =>
    simp only [List.map_cons, jsonListToNotes, jsonToNote_noteToJson]
    simp only [notesToJson] at ih
    rw [ih]

/-- The export button: serialize the full note list and LZ-compress
it to the URL-safe blob (`compressToEncodedURIComponent`). -/
def exportBlob (stringify : Json → String) (compress : String → String)
    (db : List Note) : String :=
  compress (stringify (notesToJson db))

/-- The import handler: decode with the inverse LZ codec, apply the
result only when it is truthy and parses (`none` means the import is
not applied). -/
def importBlob (parse : String → Option Json) (decompress : String → String)
    (blob : String) : Option (List Note) :=
  let d := decompress blob
  if d = "" then none
  else
    match parse d with
    | some j => notesFromJson j
    | none => none

/-- C8: export-then-import of an unmodified note list reproduces a
note list equal to the original — same ids, content, workspace tags
and `updatedAt` values.  The external codecs enter through their
interface contract at the exported payload: LZ decompression inverts
compression, `JSON.parse` inverts `JSON.stringify`, and the rendered
JSON text is non-empty. -/
theorem export_import_roundtrip
    (stringify : Json → String) (parse : String → Option Json)
    (compress decompress : String → String) (db : List Note)
    (hcd : decompress (compress (stringify (notesToJson db))) =
      stringify (notesToJson db))
    (hsp : parse (stringify (notesToJson db)) = some (notesToJson db))
    (hne : stringify (notesToJson db) ≠ "") :
    importBlob parse decompress (exportBlob stringify compress db) = some db := by
  unfold importBlob exportBlob
  simp only [hcd, if_neg hne, hsp]
  exact notesFromJson_notesToJson db

/-- A concrete note list with and without workspace tags. -/
def exC8Db : List Note :=
  [{ id := "a", content := "hello", updatedAt := 5, workspace := some "w" },
   { id := "b", content := "x", updatedAt := 2, workspace := none }]

/-- A concrete stringifier satisfying the interface contract at the
witness payload. -/
def exStringify : Json → String := fun _ => "j"

/-- Its concrete inverse at the witness payload. -/
def exParse : String → Option Json := fun _ => some (notesToJson exC8Db)

/-- A lawful (identity) stand-in for the LZ compressor. -/
def exCompress : String → String := fun s => s

/-- Its inverse. -/
def exDecompress : String → String := fun s => s

/-- Witness for `export_import_roundtrip` on `exC8Db` with the
concrete codecs. -/
theorem export_import_roundtrip_witness :
    exDecompress (exCompress (exStringify (notesToJson exC8Db))) =
        exStringify (notesToJson exC8Db) ∧
      exParse (exStringify (notesToJson exC8Db)) = some (notesToJson exC8Db) ∧
      exStringify (notesToJson exC8Db) ≠ "" ∧
      importBlob exParse exDecompress (exportBlob exStringify exCompress exC8Db)
        = some exC8Db :=
  ⟨rfl, rfl, by decide,
   export_import_roundtrip exStringify exParse exCompress exDecompress exC8Db
     rfl rfl (by decide)⟩

/-- An open palette with chord navigation pending and the second
note suggestion selected. -/
def exC9State : AppState :=
  { database := [{ id := "a", content := "x", updatedAt := 1, workspace := none },
                 { id := "b", content := "y", updatedAt := 2, workspace := none }]
    currentWorkspace := none
    currentNoteId := "a"
    freshlyDeletedNotes := []
    selectedIndex := some 1
    cmdKSearchQuery := ""
    isCmdKMenuOpen := true
    hasVimNavigated := true }

/-- C9, counterexample: on `exC9State` (chord pending, index 1, the
selected note suggestion closes the palette) releasing the modifier
does not produce the Enter result with only the chord flag cleared:
Enter resets `selectedIndex` to 0 when it closes, the chord-release
commit leaves it at 1. -/
theorem chord_release_counterexample :
    keyUpCommit fuseNotesModel fuseWorkspacesModel 10 "f" exC9State ≠
        { commitEnter fuseNotesModel fuseWorkspacesModel 10 "f" exC9State with
          hasVimNavigated := false } ∧
      (keyUpCommit fuseNotesModel fuseWorkspacesModel 10 "f"
          exC9State).selectedIndex = some 1 ∧
      (commitEnter fuseNotesModel fuseWorkspacesModel 10 "f"
          exC9State).selectedIndex = some 0 := by
  decide

/-- C9, amended: with the palette open and a chord pending, releasing
the modifier applies exactly the suggestion effect Enter would apply
— same store, filter, active note, deletion stack, query and
open/closed outcome — and clears the chord flag; `selectedIndex` also
agrees whenever the palette stays open, while on a closing commit
Enter additionally resets it to 0 and the chord release leaves it
untouched. -/
theorem chord_release_commits_like_enter
    (ns : String → List Note → List Note)
    (ws : String → List String → List String)
    (now : Nat) (fid : String) (s : AppState)
    (hopen : s.isCmdKMenuOpen = true) (hvim : s.hasVimNavigated = true) :
    (keyUpCommit ns ws now fid s).database =
        (commitEnter ns ws now fid s).database ∧
      (keyUpCommit ns ws now fid s).currentWorkspace =
        (commitEnter ns ws now fid s).currentWorkspace ∧
      (keyUpCommit ns ws now fid s).currentNoteId =
        (commitEnter ns ws now fid s).currentNoteId ∧
      (keyUpCommit ns ws now fid s).freshlyDeletedNotes =
        (commitEnter ns ws now fid s).freshlyDeletedNotes ∧
      (keyUpCommit ns ws now fid s).cmdKSearchQuery =
        (commitEnter ns ws now fid s).cmdKSearchQuery ∧
      (keyUpCommit ns ws now fid s).isCmdKMenuOpen =
        (commitEnter ns ws now fid s).isCmdKMenuOpen ∧
      (keyUpCommit ns ws now fid s).hasVimNavigated = false ∧
      ((commitEnter ns ws now fid s).isCmdKMenuOpen = true →
        (keyUpCommit ns ws now fid s).selectedIndex =
          (commitEnter ns ws now fid s).selectedIndex) := by
  have hcond : (s.hasVimNavigated = true ∧ s.isCmdKMenuOpen = true) := ⟨hvim, hopen⟩
  by_cases hlen : 0 < (suggestionsOf ns ws s).length
  · unfold keyUpCommit commitEnter
    simp only [if_pos hcond, if_pos hlen]
    cases hr : runCmdKSuggestion now fid s (selectedSuggestion ns ws s) with
    | mk s' close =>
      cases close <;> simp
  · have hsel : selectedSuggestion ns ws s = none := by
      unfold selectedSuggestion
      cases hidx : s.selectedIndex with
      | none => rfl
      | some i =>
        have : (suggestionsOf ns ws s) = [] := by
          cases hl : suggestionsOf ns ws s with
          | nil => rfl
          | cons a as => rw [hl] at hlen; simp at hlen
        rw [this]
        rfl
    unfold keyUpCommit commitEnter
    simp only [if_pos hcond, if_neg hlen, hsel]
    simp [runCmdKSuggestion]

/-- Witness for `chord_release_commits_like_enter` on `exC9State`. -/
theorem chord_release_commits_like_enter_witness :
    exC9State.isCmdKMenuOpen = true ∧ exC9State.hasVimNavigated = true ∧
      ((keyUpCommit fuseNotesModel fuseWorkspacesModel 10 "f"
            exC9State).database =
          (commitEnter fuseNotesModel fuseWorkspacesModel 10 "f"
            exC9State).database ∧
        (keyUpCommit fuseNotesModel fuseWorkspacesModel 10 "f"
            exC9State).currentWorkspace =
          (commitEnter fuseNotesModel fuseWorkspacesModel 10 "f"
            exC9State).currentWorkspace ∧
        (keyUpCommit fuseNotesModel fuseWorkspacesModel 10 "f"
            exC9State).currentNoteId =
          (commitEnter fuseNotesModel fuseWorkspacesModel 10 "f"
            exC9State).currentNoteId ∧
        (keyUpCommit fuseNotesModel fuseWorkspacesModel 10 "f"
            exC9State).freshlyDeletedNotes =
          (commitEnter fuseNotesModel fuseWorkspacesModel 10 "f"
            exC9State).freshlyDeletedNotes ∧
        (keyUpCommit fuseNotesModel fuseWorkspacesModel 10 "f"
            exC9State).cmdKSearchQuery =
          (commitEnter fuseNotesModel fuseWorkspacesModel 10 "f"
            exC9State).cmdKSearchQuery ∧
        (keyUpCommit fuseNotesModel fuseWorkspacesModel 10 "f"
            exC9State).isCmdKMenuOpen =
          (commitEnter fuseNotesModel fuseWorkspacesModel 10 "f"
            exC9State).isCmdKMenuOpen ∧
        (keyUpCommit fuseNotesModel fuseWorkspacesModel 10 "f"
            exC9State).hasVimNavigated = false ∧
        ((commitEnter fuseNotesModel fuseWorkspacesModel 10 "f"
              exC9State).isCmdKMenuOpen = true →
          (keyUpCommit fuseNotesModel fuseWorkspacesModel 10 "f"
              exC9State).selectedIndex =
            (commitEnter fuseNotesModel fuseWorkspacesModel 10 "f"
              exC9State).selectedIndex)) :=
  ⟨by decide, by decide,
   chord_release_commits_like_enter fuseNotesModel fuseWorkspacesModel 10 "f"
     exC9State (by decide) (by decide)⟩

/-- `bumpFirst` splits the database at the first note carrying `id`
and replaces only that note's `updatedAt`. -/
theorem bumpFirst_decomp (db : List Note) (id : String) (now : Nat)
    (hmem : ∃ n ∈ db, n.id = id) :
    ∃ pre n post, db = pre ++ n :: post ∧ n.id = id ∧
      (∀ m ∈ pre, m.id ≠ id) ∧
      bumpFirst db id now = pre ++ { n with updatedAt := now } :: post := by
  induction db with
  | nil => simp at hmem
  | cons m rest ih =>
    by_cases hm : m.id = id
    · exact ⟨[], m, rest, by simp, hm, by simp, by simp [bumpFirst, hm]⟩
    · obtain ⟨n, hn, hnid⟩ := hmem
      rcases List.mem_cons.mp hn with h | h
      · subst h
        exact absurd hnid hm
      · obtain ⟨pre, n', post, hdecomp, hid', hpre, hbump⟩ := ih ⟨n, h, hnid⟩
        refine ⟨m :: pre, n', post, by simp [hdecomp], hid', ?_, ?_⟩
        · intro x hx
          rcases List.mem_cons.mp hx with h' | h'
          · rw [h']
            exact hm
          · exact hpre x h'
        · simp [bumpFirst, hm, hbump]

/-- C10: merely opening a note present in the store selects it and
sets its `updatedAt` to the current time while leaving every other
note (and the opened note's other fields) unchanged; consequently,
when the new time is strictly newer than every other note's, the
opened note moves to the head of the recency ordering, and its
workspace tag (when present and non-empty) moves to the head of the
derived workspace list. -/
theorem open_note_bumps_recency (s : AppState) (id : String) (now : Nat)
    (hid : id ≠ "") (hmem : ∃ n ∈ s.database, n.id = id) :
    (openNoteState now s id).currentNoteId = id ∧
      (∃ pre n post, s.database = pre ++ n :: post ∧ n.id = id ∧
        (∀ m ∈ pre, m.id ≠ id) ∧
        (openNoteState now s id).database =
          pre ++ { n with updatedAt := now } :: post) ∧
      ((s.database.map (fun n => n.id)).Nodup →
        (∀ m ∈ s.database, m.id ≠ id → m.updatedAt < now) →
        ∃ hd rest2,
          sortNotes (openNoteState now s id).database = hd :: rest2 ∧
          hd.id = id ∧ hd.updatedAt = now ∧
          ∀ w, hd.workspace = some w → w ≠ "" →
            (availableWorkspaces
              (openNoteState now s id).database).head? = some w) := by
  have hfind : ∃ dn, s.database.find? (fun n => n.id == id) = some dn := by
    obtain ⟨n, hn, hnid⟩ := hmem
    rw [← Option.isSome_iff_exists, List.find?_isSome]
    exact ⟨n, hn, by simp [hnid]⟩
  obtain ⟨dn, hdn⟩ := hfind
  have hopen : openNoteState now s id =
      { s with currentNoteId := id, database := bumpFirst s.database id now } := by
    simp only [openNoteState, if_neg hid, hdn]
  obtain ⟨pre, n, post, hdec, hnid, hpre, hbump⟩ :=
    bumpFirst_decomp s.database id now hmem
  refine ⟨by rw [hopen], ⟨pre, n, post, hdec, hnid, hpre, by rw [hopen]; exact hbump⟩, ?_⟩
  intro hnodup hmax
  have hdb' : (openNoteState now s id).database =
      pre ++ { n with updatedAt := now } :: post := by
    rw [hopen]
    exact hbump
  have hpostid : ∀ y ∈ post, y.id ≠ id := by
    intro y hy
    have h1 : ((pre ++ n :: post).map (fun m => m.id)).Nodup := by
      rw [← hdec]
      exact hnodup
    rw [List.map_append, List.map_cons] at h1
    have h2 := h1.of_append_right
    have h3 := (List.nodup_cons.mp h2).1
    intro he
    apply h3
    rw [hnid, ← he]
    exact List.mem_map_of_mem _ hy
  have hother : ∀ y, y ∈ pre ∨ y ∈ post → y.updatedAt < now := by
    intro y hy
    apply hmax y
    · rw [hdec]
      rcases hy with h | h
      · exact List.mem_append_left _ h
      · exact List.mem_append_right _ (List.mem_cons_of_mem _ h)
    · rcases hy with h | h
      · exact hpre y h
      · exact hpostid y h
  have hne : (openNoteState now s id).database ≠ [] := by
    rw [hdb']
    simp
  obtain ⟨hd, hh, hhmem, hhmax⟩ := sortNotes_head_max hne
  have hbmem : ({ n with updatedAt := now } : Note) ∈
      (openNoteState now s id).database := by
    rw [hdb']
    simp
  have hge : now ≤ hd.updatedAt := by
    have := hhmax _ hbmem
    simpa using this
  have hd_eq : hd = { n with updatedAt := now } := by
    have hmem' : hd ∈ pre ++ { n with updatedAt := now } :: post := by
      rw [← hdb']
      exact hhmem
    rcases List.mem_append.mp hmem' with h | h
    · exact absurd hge (by have := hother hd (Or.inl h); omega)
    · rcases List.mem_cons.mp h with h' | h'
      · exact h'
      · exact absurd hge (by have := hother hd (Or.inr h'); omega)
  obtain ⟨rest2, hsorting⟩ : ∃ rest2,
      sortNotes (openNoteState now s id).database = hd :: rest2 := by
    cases hl : sortNotes (openNoteState now s id).database with
    | nil => rw [hl] at hh; simp at hh
    | cons a as =>
      rw [hl] at hh
      simp only [List.head?] at hh
      exact ⟨as, by rw [Option.some.injEq] at hh; rw [hh]⟩
  refine ⟨hd, rest2, hsorting, by rw [hd_eq]; exact hnid, by rw [hd_eq], ?_⟩
  intro w hw hw0
  unfold availableWorkspaces
  rw [hsorting]
  unfold collectWorkspaces
  rw [hw]
  simp only [if_neg hw0, List.not_mem_nil, if_neg (by simp : ¬ w ∈ ([] : List String))]
  obtain ⟨ext, hext⟩ := collectWorkspaces_acc_append rest2 ([] ++ [w])
  rw [hext]
  simp

/-- A closed-palette state with two tagged notes. -/
def exC10State : AppState :=
  { database := [{ id := "a", content := "x", updatedAt := 1, workspace := some "v" },
                 { id := "b", content := "y", updatedAt := 2, workspace := some "u" }]
    currentWorkspace := none
    currentNoteId := "b"
    freshlyDeletedNotes := []
    selectedIndex := some 0
    cmdKSearchQuery := ""
    isCmdKMenuOpen := false
    hasVimNavigated := false }

/-- Witness for `open_note_bumps_recency`: opening note "a" of
`exC10State` at time 10. -/
theorem open_note_bumps_recency_witness :
    ("a" : String) ≠ "" ∧
      (∃ n ∈ exC10State.database, n.id = "a") ∧
      ((openNoteState 10 exC10State "a").currentNoteId = "a" ∧
        (∃ pre n post, exC10State.database = pre ++ n :: post ∧ n.id = "a" ∧
          (∀ m ∈ pre, m.id ≠ "a") ∧
          (openNoteState 10 exC10State "a").database =
            pre ++ { n with updatedAt := 10 } :: post) ∧
        ((exC10State.database.map (fun n => n.id)).Nodup →
          (∀ m ∈ exC10State.database, m.id ≠ "a" → m.updatedAt < 10) →
          ∃ hd rest2,
            sortNotes (openNoteState 10 exC10State "a").database = hd :: rest2 ∧
            hd.id = "a" ∧ hd.updatedAt = 10 ∧
            ∀ w, hd.workspace = some w → w ≠ "" →
              (availableWorkspaces
                (openNoteState 10 exC10State "a").database).head? = some w)) :=
  ⟨by decide, ⟨{ id := "a", content := "x", updatedAt := 1, workspace := some "v" },
    by decide, by decide⟩,
   open_note_bumps_recency exC10State "a" 10 (by decide)
     ⟨{ id := "a", content := "x", updatedAt := 1, workspace := some "v" },
      by decide, by decide⟩⟩
